import Mathlib

/-!
Verification development for The Race Timing Solution (TRTS).

The repository records race finishes (bib number, elapsed seconds) into a
`results` table, registers runners (bib, name, team, age) in a `runners`
table, and computes three reports: individual results, cross-country team
scores, and road-race age-group standings.  Three front ends (console
`race_timing_console.py`, desktop GUI `race_timing_gui.py`, web `app.py`)
each implement the reports.

This file embeds those computations shallowly:
* elapsed times are exact rationals (the source uses floats);
* SQL tables become lists; `ORDER BY finish_time` becomes a stable
  insertion sort (stable sorts by a total preorder agree with Python's
  stable `sort` and SQLite's ordering on distinct keys);
* `LEFT JOIN runners ON results.bib = runners.bib` becomes `List.find?`
  over the registry (bibs are unique in `runners` by upsert);
* Python dict grouping (insertion ordered) becomes a fold that appends to
  the entry of an existing key or pushes a new key at the end.
-/

namespace TRTS

/-- One row of the `results` table: a recorded finish. -/
structure FinishEvent where
  bib : Int
  time : ℚ
deriving DecidableEq, Repr

/-- One row of the `runners` table (registry). `age` is nullable. -/
structure Runner where
  bib : Int
  name : String
  team : String
  age : Option Nat
deriving DecidableEq, Repr

/-- Stable insert: `x` goes in front of the first element `y` with `le x y`.
An element inserted later is placed after equal earlier elements, so the
resulting sort is stable, like Python's `list.sort` and `sorted`. -/
def insertBy (le : α → α → Bool) (x : α) : List α → List α
  | [] => [x]
  | y :: ys => if le x y then x :: y :: ys else y :: insertBy le x ys

/-- Stable insertion sort by a boolean total preorder. -/
def sortBy (le : α → α → Bool) : List α → List α
  | [] => []
  | x :: xs => insertBy le x (sortBy le xs)

/-- The ledger ordered by elapsed time ascending, as produced by
`ORDER BY results.finish_time ASC`; ties keep insertion order (stable). -/
def sortLedger (l : List FinishEvent) : List FinishEvent :=
  sortBy (fun a b => decide (a.time ≤ b.time)) l

/-- Registry lookup on bib, the join `LEFT JOIN runners ON results.bib =
runners.bib` (bibs unique in `runners`, so at most one row matches). -/
def findRunner (reg : List Runner) (b : Int) : Option Runner :=
  reg.find? (fun ru => ru.bib == b)

/-- One output row of the GUI and web individual results. -/
structure IndivRow where
  place : Nat
  bib : Int
  name : String
  time : ℚ
deriving DecidableEq, Repr

/-- Individual results of `show_individual_results` (GUI) and
`individual_results` (web): left join of results with runners, name
`COALESCE`d to `"UNKNOWN"`, ordered by time, place = 1-based position. -/
def individual_results (l : List FinishEvent) (reg : List Runner) : List IndivRow :=
  (sortLedger l).enum.map (fun p =>
    { place := p.1 + 1
      bib := p.2.bib
      name := ((findRunner reg p.2.bib).map Runner.name).getD "UNKNOWN"
      time := p.2.time })

/-- One output row of the console individual results (typed race paths). -/
structure ConsoleIndivRow where
  place : Nat
  bib : Int
  name : String
  team : String
  time : ℚ
deriving DecidableEq, Repr

/-- Console `show_individual_results` for a cross-country race: the query
uses an inner `JOIN runners ru ON r.bib = ru.bib`, so only finish events
whose bib matches a registry row are returned; places are the 1-based
positions in that joined, time-ordered list. -/
def console_individual_results (l : List FinishEvent) (reg : List Runner) :
    List ConsoleIndivRow :=
  (((sortLedger l).filterMap
      (fun e => (findRunner reg e.bib).map (fun ru => (e, ru)))).enum).map
    (fun p =>
      { place := p.1 + 1
        bib := p.2.1.bib
        name := p.2.2.name
        team := p.2.2.team
        time := p.2.1.time })

/-- One joined, placed row feeding the team scorer: the GUI query
`SELECT COALESCE(runners.team,'UNKNOWN'), results.bib, runners.name,
results.finish_time ... ORDER BY results.finish_time ASC` with
`place = enumerate(rows, 1)`. -/
structure TeamRow where
  place : Nat
  team : String
  bib : Int
  name : Option String
  time : ℚ
deriving DecidableEq, Repr

/-- Placed, team-joined rows of the whole field in finish order. -/
def teamRows (l : List FinishEvent) (reg : List Runner) : List TeamRow :=
  (sortLedger l).enum.map (fun p =>
    { place := p.1 + 1
      team := ((findRunner reg p.2.bib).map Runner.team).getD "UNKNOWN"
      bib := p.2.bib
      name := (findRunner reg p.2.bib).map Runner.name
      time := p.2.time })

/-- Append a row to its team's group, or open a new group at the end:
`teams.setdefault(team, []).append(...)` on an insertion-ordered dict. -/
def addRow (row : TeamRow) : List (String × List TeamRow) → List (String × List TeamRow)
  | [] => [(row.team, [row])]
  | (u, rs) :: gs =>
    if u = row.team then (u, rs ++ [row]) :: gs else (u, rs) :: addRow row gs

/-- Group the placed rows by team, preserving overall-place order inside
each group and first-appearance order of the groups. -/
def groupByTeam (rows : List TeamRow) : List (String × List TeamRow) :=
  rows.foldl (fun gs r => addRow r gs) []

/-- A scored team as built by `show_team_results` / `team_results`:
`top5 = runners[:5]`, `displacers = runners[5:7]`,
`score = sum(p[0] for p in top5)`,
`tiebreak = [p[0] for p in displacers] + [inf, inf]` — the missing-slot
sentinel `float('inf')` is embedded as `none`. -/
structure TeamEntry where
  team : String
  score : Nat
  top5 : List TeamRow
  displacers : List TeamRow
  tb1 : Option Nat
  tb2 : Option Nat
deriving DecidableEq, Repr

/-- Build the entry of one scoring team from its rows in place order. -/
def mkTeamEntry (t : String) (rs : List TeamRow) : TeamEntry :=
  { team := t
    score := ((rs.take 5).map TeamRow.place).sum
    top5 := rs.take 5
    displacers := (rs.drop 5).take 2
    tb1 := (rs.get? 5).map TeamRow.place
    tb2 := (rs.get? 6).map TeamRow.place }

/-- Strict order on tiebreak slots; `none` is the `+inf` sentinel. -/
def tbLt (a b : Option Nat) : Bool :=
  match a, b with
  | some x, some y => decide (x < y)
  | some _, none => true
  | none, _ => false

/-- Nonstrict order on tiebreak slots; `none` is the `+inf` sentinel. -/
def tbLe (a b : Option Nat) : Bool := tbLt a b || a == b

/-- Lexicographic comparison on `(score, tiebreak1, tiebreak2)`, the key
of `scores.sort(key=lambda x: (x[1], x[4], x[5]))`. -/
def keyLe (a b : TeamEntry) : Bool :=
  decide (a.score < b.score) ||
    (a.score == b.score &&
      (tbLt a.tb1 b.tb1 || (a.tb1 == b.tb1 && tbLe a.tb2 b.tb2)))

/-- Cross-country team results: group the placed field by team, keep teams
with at least 5 finishers, score them, and stable-sort ascending by
`(score, tiebreak1, tiebreak2)`. -/
def team_results (l : List FinishEvent) (reg : List Runner) : List TeamEntry :=
  sortBy keyLe
    ((groupByTeam (teamRows l reg)).filterMap
      (fun p => if 5 ≤ p.2.length then some (mkTeamEntry p.1 p.2) else none))

/-- The fixed age bands of the GUI (`show_age_group_results`), the web app
and the test suite: `[(1,15),(16,20),...,(66,70),(71,200)]`.  Note the last
band is written `(71, 200)` in the source, not an unbounded `71+`. -/
def age_groups : List (Nat × Nat) :=
  [(1, 15), (16, 20), (21, 25), (26, 30), (31, 35), (36, 40),
   (41, 45), (46, 50), (51, 55), (56, 60), (61, 65), (66, 70), (71, 200)]

/-- Membership of an (optional) age in a band: `low <= age <= high`.
A row with no age matches no band (the console query filters
`ru.age IS NOT NULL`; the web app coerces a null age to 0, which also
matches no band). -/
def inBand (g : Nat × Nat) (a : Option Nat) : Bool :=
  match a with
  | some x => decide (g.1 ≤ x) && decide (x ≤ g.2)
  | none => false

/-- The band an age falls into: the first band of the linear scan whose
bounds contain it (the loop `for (low, high) in age_groups: if low <= age
<= high: ...; break`). -/
def ageGroupOf (a : Nat) : Option (Nat × Nat) :=
  age_groups.find? (fun g => decide (g.1 ≤ a) && decide (a ≤ g.2))

/-- A placed, age-joined row of the road-race report. -/
structure AgeRow where
  place : Nat
  bib : Int
  name : Option String
  age : Option Nat
  time : ℚ
deriving DecidableEq, Repr

/-- Placed rows of the whole field in finish order, with the runner's age
from the left join. -/
def ageRows (l : List FinishEvent) (reg : List Runner) : List AgeRow :=
  (sortLedger l).enum.map (fun p =>
    { place := p.1 + 1
      bib := p.2.bib
      name := (findRunner reg p.2.bib).map Runner.name
      age := (findRunner reg p.2.bib).bind Runner.age
      time := p.2.time })

/-- Age-group report of `show_age_group_results` (GUI): every band paired
with the placed rows whose age it contains, in overall-place order.  The
source assigns each row to the first matching band of the scan and the
bands are pairwise disjoint, so the bucket of a band is exactly the filter
of the placed rows by that band; a row whose age matches no band lands in
no bucket. -/
def age_group_results (l : List FinishEvent) (reg : List Runner) :
    List ((Nat × Nat) × List AgeRow) :=
  age_groups.map (fun g => (g, (ageRows l reg).filter (fun r => inBand g r.age)))

/-- Decimal digit character of `d % 10`. -/
def decDigit (d : Nat) : Char :=
  match d % 10 with
  | 0 => '0'
  | 1 => '1'
  | 2 => '2'
  | 3 => '3'
  | 4 => '4'
  | 5 => '5'
  | 6 => '6'
  | 7 => '7'
  | 8 => '8'
  | _ => '9'

/-- Decimal rendering of a natural number, with explicit fuel so that it
is structurally recursive (the fuel `n + 1` always suffices). -/
def natToDecAux : Nat → Nat → List Char
  | 0, _ => []
  | fuel + 1, n =>
    if n < 10 then [decDigit n]
    else natToDecAux fuel (n / 10) ++ [decDigit (n % 10)]

/-- Decimal rendering of a natural number, as in Python's `str`/`d`. -/
def natToDec (n : Nat) : List Char := natToDecAux (n + 1) n

/-- Python's `f"{n:02d}"` for a natural number: pad to width 2 with a
leading zero. -/
def pad2 (n : Nat) : List Char :=
  if n < 10 then '0' :: natToDec n else natToDec n

/-- Zero padding to width 3 (the millisecond part of `f"{s:06.3f}"`). -/
def pad3 (n : Nat) : List Char :=
  if n < 10 then '0' :: '0' :: natToDec n
  else if n < 100 then '0' :: natToDec n
  else natToDec n

/-- Python's `f"{m:02d}"` for an integer: the sign counts toward the
width, so any negative value prints as `-` followed by its digits. -/
def intPad2 (m : Int) : List Char :=
  if m < 0 then '-' :: natToDec (-m).toNat else pad2 m.toNat

/-- Round-half-even of `a / d` (for `d > 0`), the rounding `%.3f` applies
to the scaled millisecond value. -/
def roundHalfEven (a d : Int) : Int :=
  let q := a.fdiv d
  let r := a.fmod d
  if 2 * r < d then q
  else if d < 2 * r then q + 1
  else if q % 2 = 0 then q else q + 1

/-- The primary formatter `format_time` of the GUI and the console:

    if total_seconds is None: return "00:00.000"
    minutes, seconds = divmod(total_seconds, 60)
    return f"{int(minutes):02d}:{seconds:06.3f}"

`divmod(t, 60)` is `(⌊t/60⌋, t - 60*⌊t/60⌋)`; on the exact rational
`t = t.num / t.den` the quotient is `t.num.fdiv (60 * t.den)` and
`{seconds:06.3f}` renders `seconds` rounded half-even to milliseconds,
zero padded to width 6 (two integer digits).  The fractional remainder
`t - 60*⌊t/60⌋` lies in `[0, 60)`, so the millisecond value
`1000*t.num - 60000*m*t.den` over `t.den` is nonnegative. -/
def format_time : Option ℚ → String
  | none => "00:00.000"
  | some t =>
    let d : Int := (t.den : Int)
    let m : Int := t.num.fdiv (60 * d)
    let ms : Int := roundHalfEven (1000 * t.num - 60000 * m * d) d
    String.mk (intPad2 m ++ [':'] ++ pad2 (ms / 1000).toNat ++ ['.'] ++ pad3 (ms % 1000).toNat)

/-- The millisecond value `format_time` renders for `some t`: the
remainder seconds `t - 60*⌊t/60⌋ = (1000*t.num - 60000*m*t.den) / (1000*t.den)`
scaled to milliseconds and rounded half-even. -/
def fmtMs (t : ℚ) : Int :=
  roundHalfEven (1000 * t.num - 60000 * (t.num.fdiv (60 * (t.den : Int))) * (t.den : Int))
    (t.den : Int)

/-- Split a character list at every occurrence of `sep`, like Python's
`str.split(sep)`; always returns at least one (possibly empty) part. -/
def splitOnChar (sep : Char) : List Char → List (List Char)
  | [] => [[]]
  | c :: rest =>
    let r := splitOnChar sep rest
    if c = sep then [] :: r
    else
      match r with
      | [] => [[c]]
      | h :: t => (c :: h) :: t

/-- Digits to a natural number, most significant first. -/
def digitsToNat (cs : List Char) : Nat :=
  cs.foldl (fun acc c => acc * 10 + (c.toNat - 48)) 0

/-- Python's `int(str)` on an already stripped token: an optional sign
followed by at least one digit (the underscore and whitespace tolerance of
CPython is not exercised by this program's inputs). -/
def parseIntChars (cs : List Char) : Option Int :=
  match cs with
  | [] => none
  | c :: rest =>
    if c = '-' then
      if !rest.isEmpty && rest.all Char.isDigit then some (-(digitsToNat rest : Int)) else none
    else if c = '+' then
      if !rest.isEmpty && rest.all Char.isDigit then some ((digitsToNat rest : Int)) else none
    else if (c :: rest).all Char.isDigit then some ((digitsToNat (c :: rest) : Int)) else none

/-- Python's `float(str)` restricted to plain decimal notation: optional
sign, digits around at most one dot, at least one digit.  The result is
returned as an exact numerator/denominator pair `(p, q)` with value
`p / q` (the claims only exercise such decimal strings; CPython's
`inf`/`nan`/exponent forms are not modelled). -/
def parseDecChars (cs : List Char) : Option (Int × Nat) :=
  let sb : Int × List Char :=
    match cs with
    | '-' :: rest => (-1, rest)
    | '+' :: rest => (1, rest)
    | _ => (1, cs)
  match splitOnChar '.' sb.2 with
  | [ip] =>
    if !ip.isEmpty && ip.all Char.isDigit then some (sb.1 * (digitsToNat ip : Int), 1)
    else none
  | [ip, fp] =>
    if (!ip.isEmpty || !fp.isEmpty) && ip.all Char.isDigit && fp.all Char.isDigit then
      some (sb.1 * ((digitsToNat ip : Int) * (10 ^ fp.length : Nat) + (digitsToNat fp : Int)),
        10 ^ fp.length)
    else none
  | _ => none

/-- The manual time entry parser `parse_time_input` of
`test_time_formatting.py` (the testable copy of the GUI logic):

    if not time_string: return None
    if time_string.count(':') == 1:
        minutes, seconds = split; return int(minutes) * 60 + float(seconds)
    elif time_string.count(':') == 2:
        hours, minutes, seconds = split
        return int(hours) * 3600 + int(minutes) * 60 + float(seconds)
    else: return None   -- and None on any int()/float() ValueError

A string has exactly one (two) colons iff splitting on ':' yields exactly
two (three) parts.  With the seconds part parsed as the exact value
`p / q`, the totals `m*60 + p/q` and `(h*3600 + m*60) + p/q` are built
with `mkRat` over a common denominator. -/
def parse_time_input (s : String) : Option ℚ :=
  if s.data.isEmpty then none
  else
    match splitOnChar ':' s.data with
    | [ms, ss] =>
      match parseIntChars ms, parseDecChars ss with
      | some mi, some pq => some (mkRat (mi * 60 * (pq.2 : Int) + pq.1) pq.2)
      | _, _ => none
    | [hs, ms, ss] =>
      match parseIntChars hs, parseIntChars ms, parseDecChars ss with
      | some hi, some mi, some pq =>
        some (mkRat ((hi * 3600 + mi * 60) * (pq.2 : Int) + pq.1) pq.2)
      | _, _, _ => none
    | _ => none

/-- Whitespace as recognised by Python's `str.strip()` on the inputs this
program sees. -/
def isSpaceChar (c : Char) : Bool :=
  c == ' ' || c == '\t' || c == '\n' || c == '\r'

/-- Python's `str.strip()`. -/
def stripChars (cs : List Char) : List Char :=
  ((cs.dropWhile isSpaceChar).reverse.dropWhile isSpaceChar).reverse

/-- The console normalisation `input().strip().lower()`. -/
def normalizeToken (s : String) : List Char :=
  (stripChars s.data).map Char.toLower

/-- One console loop iteration's input: the typed token, the elapsed time
the finish would be recorded with, and the operator's answers to the two
`[y/N]` confirmation prompts (record an unknown bib / update a duplicate). -/
structure ConsoleInput where
  token : String
  now : ℚ
  confirmRecord : Bool
  confirmUpdate : Bool

/-- The mutable state of a live timing session: the `results` table and
the `finish_count` counter. -/
structure SessionState where
  ledger : List FinishEvent
  finishCount : Nat
deriving DecidableEq, Repr

/-- One non-exit iteration of the console `start_race` input loop:
`status` shows status and continues; an empty token continues; a token
`int()` rejects is warned about and skipped; a parsed bib is checked
against the registry (unknown bibs need confirmation), then either updates
the existing `results` row for that bib (on confirmation; `UPDATE ...
WHERE bib = ?` touches every row of that bib and does not advance
`finish_count`) or appends a new row and advances `finish_count`. -/
def consoleStep (reg : List Runner) (st : SessionState) (inp : ConsoleInput) : SessionState :=
  if normalizeToken inp.token = "status".data then st
  else if (normalizeToken inp.token).isEmpty then st
  else
    match parseIntChars (normalizeToken inp.token) with
    | none => st
    | some b =>
      if (findRunner reg b).isNone && !inp.confirmRecord then st
      else if st.ledger.any (fun e => e.bib == b) then
        if inp.confirmUpdate then
          { st with ledger := st.ledger.map (fun e =>
              if e.bib == b then { e with time := inp.now } else e) }
        else st
      else
        { ledger := st.ledger ++ [{ bib := b, time := inp.now }]
          finishCount := st.finishCount + 1 }

/-- The console `start_race` input loop: fold the inputs through
`consoleStep`, stopping at the `exit` sentinel. -/
def consoleRun (reg : List Runner) : SessionState → List ConsoleInput → SessionState
  | st, [] => st
  | st, i :: rest =>
    if normalizeToken i.token = "exit".data then st
    else consoleRun reg (consoleStep reg st i) rest

/-- One activation of the GUI bib entry (`on_bib_entry_activate`): the
text is stripped; `exit` (case-insensitively) closes the window (`none`);
any other token — including an unknown, empty or non-numeric one — is
recorded: `bib_number = int(bib_text) if bib_text else 0` with
`except ValueError: bib_number = 0`, then an unconditional
`INSERT INTO results` and `finish_count += 1`. -/
def guiStep (st : SessionState) (token : String) (now : ℚ) : Option SessionState :=
  let txt := stripChars token.data
  if txt.map Char.toLower = "exit".data then none
  else
    some { ledger := st.ledger ++ [{ bib := (parseIntChars txt).getD 0, time := now }]
           finishCount := st.finishCount + 1 }

/-- The GUI timing window loop over a list of (token, elapsed) entries. -/
def guiRun (st : SessionState) : List (String × ℚ) → SessionState
  | [] => st
  | (tok, now) :: rest =>
    match guiStep st tok now with
    | none => st
    | some st2 => guiRun st2 rest

/-- Registry for the worked scoring scenario of the spec: 12 runners,
team A holding overall places {1,3,4,6,7,12} and team B {2,5,8,9,10,11}
once the ledger below is placed. -/
def exReg1 : List Runner :=
  [⟨1, "a1", "A", none⟩, ⟨2, "b1", "B", none⟩, ⟨3, "a2", "A", none⟩,
   ⟨4, "a3", "A", none⟩, ⟨5, "b2", "B", none⟩, ⟨6, "a4", "A", none⟩,
   ⟨7, "a5", "A", none⟩, ⟨8, "b3", "B", none⟩, ⟨9, "b4", "B", none⟩,
   ⟨10, "b5", "B", none⟩, ⟨11, "b6", "B", none⟩, ⟨12, "a6", "A", none⟩]

/-- Ledger for the worked scoring scenario: bib `i` finishes `i`-th. -/
def exLedger1 : List FinishEvent :=
  [⟨1, 1⟩, ⟨2, 2⟩, ⟨3, 3⟩, ⟨4, 4⟩, ⟨5, 5⟩, ⟨6, 6⟩,
   ⟨7, 7⟩, ⟨8, 8⟩, ⟨9, 9⟩, ⟨10, 10⟩, ⟨11, 11⟩, ⟨12, 12⟩]

/-- Registry for the tie-break scenario: teams A and B both score 28
(places {1,4,6,8,9} and {2,3,5,7,11}), A's sixth runner finishes 12th and
B's 13th; the lone team-C runner finishes 10th. -/
def exReg2 : List Runner :=
  [⟨1, "a1", "A", none⟩, ⟨2, "b1", "B", none⟩, ⟨3, "b2", "B", none⟩,
   ⟨4, "a2", "A", none⟩, ⟨5, "b3", "B", none⟩, ⟨6, "a3", "A", none⟩,
   ⟨7, "b4", "B", none⟩, ⟨8, "a4", "A", none⟩, ⟨9, "a5", "A", none⟩,
   ⟨10, "c1", "C", none⟩, ⟨11, "b5", "B", none⟩, ⟨12, "a6", "A", none⟩,
   ⟨13, "b6", "B", none⟩]

/-- Ledger for the tie-break scenario: bib `i` finishes `i`-th. -/
def exLedger2 : List FinishEvent :=
  [⟨1, 1⟩, ⟨2, 2⟩, ⟨3, 3⟩, ⟨4, 4⟩, ⟨5, 5⟩, ⟨6, 6⟩, ⟨7, 7⟩,
   ⟨8, 8⟩, ⟨9, 9⟩, ⟨10, 10⟩, ⟨11, 11⟩, ⟨12, 12⟩, ⟨13, 13⟩]

/-- Registry of four very fast runners, all on team T. -/
def exReg3 : List Runner :=
  [⟨1, "t1", "T", none⟩, ⟨2, "t2", "T", none⟩,
   ⟨3, "t3", "T", none⟩, ⟨4, "t4", "T", none⟩]

/-- Ledger of the four team-T finishers. -/
def exLedger3 : List FinishEvent := [⟨1, 1⟩, ⟨2, 2⟩, ⟨3, 3⟩, ⟨4, 4⟩]

/-- The team-A entry computed by `team_results` on the worked scoring
scenario. -/
def exEntryA : TeamEntry :=
  ⟨"A", 21,
   [⟨1, "A", 1, some "a1", 1⟩, ⟨3, "A", 3, some "a2", 3⟩, ⟨4, "A", 4, some "a3", 4⟩,
    ⟨6, "A", 6, some "a4", 6⟩, ⟨7, "A", 7, some "a5", 7⟩],
   [⟨12, "A", 12, some "a6", 12⟩], some 12, none⟩

/-- The team-A entry computed by `team_results` on the tie-break
scenario. -/
def exEntryA2 : TeamEntry :=
  ⟨"A", 28,
   [⟨1, "A", 1, some "a1", 1⟩, ⟨4, "A", 4, some "a2", 4⟩, ⟨6, "A", 6, some "a3", 6⟩,
    ⟨8, "A", 8, some "a4", 8⟩, ⟨9, "A", 9, some "a5", 9⟩],
   [⟨12, "A", 12, some "a6", 12⟩], some 12, none⟩

theorem insertBy_perm (le : α → α → Bool) (x : α) (l : List α) :
    List.Perm (insertBy le x l) (x :: l) := by
  induction l with
  | nil => simp [insertBy]
  | cons y ys ih =>
    simp only [insertBy]
    by_cases h : le x y
    · simp [h]
    · simp only [h, if_neg]
      exact List.Perm.trans (ih.cons y) (List.Perm.swap x y ys)

theorem sortBy_perm (le : α → α → Bool) (l : List α) : List.Perm (sortBy le l) l := by
  induction l with
  | nil => exact List.Perm.refl []
  | cons x xs ih =>
    exact List.Perm.trans (insertBy_perm le x (sortBy le xs)) (ih.cons x)

theorem sortBy_length (le : α → α → Bool) (l : List α) :
    (sortBy le l).length = l.length :=
  (sortBy_perm le l).length_eq

theorem mem_sortBy {le : α → α → Bool} {l : List α} {a : α} :
    a ∈ sortBy le l ↔ a ∈ l :=
  (sortBy_perm le l).mem_iff

theorem pairwise_insertBy {le : α → α → Bool}
    (htot : ∀ a b, le a b = true ∨ le b a = true)
    (htrans : ∀ a b c, le a b = true → le b c = true → le a c = true)
    {l : List α} (hl : l.Pairwise (fun a b => le a b = true)) (x : α) :
    (insertBy le x l).Pairwise (fun a b => le a b = true) := by
  induction l with
  | nil => simp [insertBy]
  | cons y ys ih =>
    rw [List.pairwise_cons] at hl
    obtain ⟨hy, hys⟩ := hl
    simp only [insertBy]
    by_cases h : le x y
    · rw [if_pos h]
      refine List.Pairwise.cons ?_ (List.Pairwise.cons hy hys)
      intro b hb
      rcases List.mem_cons.mp hb with rfl | hb
      · exact h
      · exact htrans x y b h (hy b hb)
    · rw [if_neg h]
      have hyx : le y x = true := (htot x y).resolve_left h
      refine List.Pairwise.cons ?_ (ih hys)
      intro b hb
      have hb2 : b ∈ x :: ys := (insertBy_perm le x ys).mem_iff.mp hb
      rcases List.mem_cons.mp hb2 with rfl | hb2
      · exact hyx
      · exact hy b hb2

theorem sortBy_pairwise {le : α → α → Bool}
    (htot : ∀ a b, le a b = true ∨ le b a = true)
    (htrans : ∀ a b c, le a b = true → le b c = true → le a c = true)
    (l : List α) :
    (sortBy le l).Pairwise (fun a b => le a b = true) := by
  induction l with
  | nil => simp [sortBy]
  | cons x xs ih => exact pairwise_insertBy htot htrans ih x

theorem sortLedger_length (l : List FinishEvent) : (sortLedger l).length = l.length :=
  sortBy_length _ l

theorem map_fst_succ_enum {α : Type} (xs : List α) :
    xs.enum.map (fun p => p.1 + 1) = List.range' 1 xs.length := by
  rw [List.range'_eq_map_range, ← List.enum_map_fst xs, List.map_map]
  simp [Function.comp, Nat.add_comm]

theorem teamRows_map_place (l : List FinishEvent) (reg : List Runner) :
    (teamRows l reg).map TeamRow.place = List.range' 1 l.length := by
  have h := map_fst_succ_enum (sortLedger l)
  rw [sortLedger_length] at h
  calc (teamRows l reg).map TeamRow.place
      = (sortLedger l).enum.map (fun p => p.1 + 1) := by
        unfold teamRows; rw [List.map_map]; rfl
    _ = List.range' 1 l.length := h

theorem individual_results_map_place (l : List FinishEvent) (reg : List Runner) :
    (individual_results l reg).map IndivRow.place = List.range' 1 l.length := by
  have h := map_fst_succ_enum (sortLedger l)
  rw [sortLedger_length] at h
  calc (individual_results l reg).map IndivRow.place
      = (sortLedger l).enum.map (fun p => p.1 + 1) := by
        unfold individual_results; rw [List.map_map]; rfl
    _ = List.range' 1 l.length := h

theorem addRow_keys (row : TeamRow) (gs : List (String × List TeamRow)) :
    (addRow row gs).map Prod.fst =
      if row.team ∈ gs.map Prod.fst then gs.map Prod.fst
      else gs.map Prod.fst ++ [row.team] := by
  induction gs with
  | nil => simp [addRow]
  | cons g gs ih =>
    obtain ⟨u, rs⟩ := g
    by_cases h : u = row.team
    · subst h
      simp [addRow]
    · simp only [addRow, if_neg h, List.map_cons, List.mem_cons]
      rw [ih]
      by_cases h2 : row.team ∈ gs.map Prod.fst
      · rw [if_pos h2, if_pos (Or.inr h2)]
      · rw [if_neg h2, if_neg ?_]
        · simp
        · rintro (h3 | h3)
          · exact h (h3.symm)
          · exact h2 h3

theorem filter_singleton_ne (x : TeamRow) (t : String) (h : x.team ≠ t) :
    List.filter (fun y => y.team == t) [x] = [] := by
  simp [List.filter_singleton, h]

theorem filter_singleton_self (x : TeamRow) :
    List.filter (fun y => y.team == x.team) [x] = [x] := by
  simp [List.filter_singleton]

theorem addRow_ent (row : TeamRow) (gs : List (String × List TeamRow))
    (pr : List TeamRow)
    (hent : ∀ p ∈ gs, p.2 = pr.filter (fun x => x.team == p.1))
    (habs : row.team ∉ gs.map Prod.fst →
      pr.filter (fun x => x.team == row.team) = [])
    (hnd : (gs.map Prod.fst).Nodup) :
    ∀ p ∈ addRow row gs, p.2 = (pr ++ [row]).filter (fun x => x.team == p.1) := by
  induction gs with
  | nil =>
    intro p hp
    simp only [addRow, List.mem_singleton] at hp
    rw [hp]
    simp only [List.filter_append]
    rw [habs (by simp), filter_singleton_self]
    simp
  | cons g gs ih =>
    obtain ⟨u, rs⟩ := g
    simp only [List.map_cons, List.nodup_cons] at hnd
    obtain ⟨hu, hnd2⟩ := hnd
    have hrs : rs = pr.filter (fun x => x.team == u) := by
      simpa using hent ⟨u, rs⟩ (List.mem_cons_self _ _)
    by_cases h : u = row.team
    · subst h
      intro p hp
      rw [addRow, if_pos rfl] at hp
      rcases List.mem_cons.mp hp with hp | hp
      · rw [hp]
        simp only [List.filter_append]
        rw [← hrs, filter_singleton_self]
      · have h1 : p.2 = pr.filter (fun x => x.team == p.1) :=
          hent p (List.mem_cons_of_mem _ hp)
        have hne : row.team ≠ p.1 := by
          intro hcon
          exact hu (hcon ▸ List.mem_map_of_mem Prod.fst hp)
        rw [List.filter_append, ← h1, filter_singleton_ne _ _ hne, List.append_nil]
    · intro p hp
      rw [addRow, if_neg h] at hp
      rcases List.mem_cons.mp hp with hp | hp
      · rw [hp]
        simp only [List.filter_append]
        rw [← hrs, filter_singleton_ne _ _ (fun hc => h hc.symm), List.append_nil]
      · refine ih (fun q hq => hent q (List.mem_cons_of_mem _ hq)) ?_ hnd2 p hp
        intro h2
        refine habs ?_
        simp only [List.map_cons, List.mem_cons]
        rintro (h3 | h3)
        · exact h h3.symm
        · exact h2 h3

theorem groupFold_inv (rows : List TeamRow) :
    ∀ (pr : List TeamRow) (gs : List (String × List TeamRow)),
      (gs.map Prod.fst).Nodup →
      (∀ t, t ∈ gs.map Prod.fst ↔ t ∈ pr.map TeamRow.team) →
      (∀ p ∈ gs, p.2 = pr.filter (fun x => x.team == p.1)) →
      ((rows.foldl (fun a r => addRow r a) gs).map Prod.fst).Nodup ∧
      (∀ p ∈ rows.foldl (fun a r => addRow r a) gs,
        p.2 = (pr ++ rows).filter (fun x => x.team == p.1)) := by
  induction rows with
  | nil =>
    intro pr gs hnd hiff hent
    refine ⟨hnd, ?_⟩
    rw [List.append_nil]
    exact hent
  | cons r rows ih =>
    intro pr gs hnd hiff hent
    have habs : r.team ∉ gs.map Prod.fst →
        pr.filter (fun x => x.team == r.team) = [] := by
      intro h2
      rw [List.filter_eq_nil_iff]
      intro a ha
      simp only [beq_iff_eq]
      intro hcon
      exact h2 ((hiff r.team).mpr (hcon ▸ List.mem_map_of_mem TeamRow.team ha))
    have hnd2 : ((addRow r gs).map Prod.fst).Nodup := by
      rw [addRow_keys]
      by_cases h2 : r.team ∈ gs.map Prod.fst
      · rw [if_pos h2]; exact hnd
      · rw [if_neg h2]
        refine List.Nodup.append hnd (List.nodup_singleton _) ?_
        intro a ha hb
        rw [List.mem_singleton] at hb
        exact h2 (hb ▸ ha)
    have hiff2 : ∀ t, t ∈ (addRow r gs).map Prod.fst ↔
        t ∈ (pr ++ [r]).map TeamRow.team := by
      intro t
      rw [addRow_keys]
      by_cases h2 : r.team ∈ gs.map Prod.fst
      · rw [if_pos h2]
        simp only [List.map_append, List.mem_append, List.map_cons, List.map_nil,
          List.mem_singleton]
        constructor
        · intro h3
          exact Or.inl ((hiff t).mp h3)
        · rintro (h3 | h3)
          · exact (hiff t).mpr h3
          · exact h3 ▸ h2
      · rw [if_neg h2]
        simp only [List.mem_append, List.mem_singleton, List.map_append,
          List.map_cons, List.map_nil]
        rw [hiff t]
    have hent2 := addRow_ent r gs pr hent habs hnd
    have := ih (pr ++ [r]) (addRow r gs) hnd2 hiff2 hent2
    rw [List.append_assoc] at this
    simpa using this

theorem groupByTeam_nodup (rows : List TeamRow) :
    ((groupByTeam rows).map Prod.fst).Nodup :=
  (groupFold_inv rows [] [] (by simp) (by simp) (by simp)).1

theorem groupByTeam_ent (rows : List TeamRow) :
    ∀ p ∈ groupByTeam rows, p.2 = rows.filter (fun x => x.team == p.1) := by
  have h := (groupFold_inv rows [] [] (by simp) (by simp) (by simp)).2
  simpa using h

theorem mem_team_results {l : List FinishEvent} {reg : List Runner} {e : TeamEntry} :
    e ∈ team_results l reg ↔
      ∃ p ∈ groupByTeam (teamRows l reg), 5 ≤ p.2.length ∧ e = mkTeamEntry p.1 p.2 := by
  unfold team_results
  rw [mem_sortBy, List.mem_filterMap]
  constructor
  · rintro ⟨p, hp, hfp⟩
    by_cases h5 : 5 ≤ p.2.length
    · rw [if_pos h5] at hfp
      exact ⟨p, hp, h5, (Option.some.injEq .. ▸ hfp).symm⟩
    · rw [if_neg h5] at hfp
      exact absurd hfp (Option.noConfusion)
  · rintro ⟨p, hp, h5, he⟩
    exact ⟨p, hp, by rw [if_pos h5, he]⟩

theorem team_results_origin {l : List FinishEvent} {reg : List Runner} {e : TeamEntry}
    (h : e ∈ team_results l reg) :
    5 ≤ ((teamRows l reg).filter (fun x => x.team == e.team)).length ∧
      e = mkTeamEntry e.team ((teamRows l reg).filter (fun x => x.team == e.team)) := by
  obtain ⟨p, hp, h5, he⟩ := mem_team_results.mp h
  have hteam : e.team = p.1 := by rw [he]; rfl
  have hent := groupByTeam_ent (teamRows l reg) p hp
  rw [hteam, ← hent]
  exact ⟨h5, by rw [he]⟩

theorem filter_places_sorted (l : List FinishEvent) (reg : List Runner)
    (q : TeamRow → Bool) :
    (((teamRows l reg).filter q).map TeamRow.place).Pairwise (· < ·) := by
  have hsub : (((teamRows l reg).filter q).map TeamRow.place).Sublist
      ((teamRows l reg).map TeamRow.place) :=
    List.Sublist.map TeamRow.place (List.filter_sublist _)
  rw [teamRows_map_place] at hsub
  exact List.Pairwise.sublist hsub (List.pairwise_lt_range' 1 l.length)

theorem keyLe_total (a b : TeamEntry) : keyLe a b = true ∨ keyLe b a = true := by
  obtain ⟨t1, s1, f1, d1, x1, y1⟩ := a
  obtain ⟨t2, s2, f2, d2, x2, y2⟩ := b
  simp only [keyLe, tbLe]
  cases x1 <;> cases x2 <;> cases y1 <;> cases y2 <;>
    simp only [tbLt, Bool.or_eq_true, Bool.and_eq_true, decide_eq_true_eq,
      beq_iff_eq, Option.some.injEq, reduceCtorEq, or_false, false_or,
      and_true, true_and, or_true, true_or, and_false, false_and] <;>
    omega

theorem keyLe_trans (a b c : TeamEntry) (h1 : keyLe a b = true)
    (h2 : keyLe b c = true) : keyLe a c = true := by
  obtain ⟨t1, s1, f1, d1, x1, y1⟩ := a
  obtain ⟨t2, s2, f2, d2, x2, y2⟩ := b
  obtain ⟨t3, s3, f3, d3, x3, y3⟩ := c
  simp only [keyLe, tbLe] at h1 h2 ⊢
  cases x1 <;> cases x2 <;> cases x3 <;> cases y1 <;> cases y2 <;> cases y3 <;>
    simp only [tbLt, Bool.or_eq_true, Bool.and_eq_true, decide_eq_true_eq,
      beq_iff_eq, Option.some.injEq, reduceCtorEq, or_false, false_or,
      and_true, true_and, or_true, true_or, and_false, false_and] at h1 h2 ⊢ <;>
    omega

theorem team_results_sorted (l : List FinishEvent) (reg : List Runner) :
    (team_results l reg).Pairwise (fun a b => keyLe a b = true) :=
  sortBy_pairwise keyLe_total (fun a b c hab hbc => keyLe_trans a b c hab hbc) _

theorem mkTeamEntry_score (t : String) (rs : List TeamRow) :
    (mkTeamEntry t rs).score = ((rs.map TeamRow.place).take 5).sum := by
  unfold mkTeamEntry
  rw [List.map_take]

theorem mkTeamEntry_tb (t : String) (rs : List TeamRow) :
    (mkTeamEntry t rs).tb1 = (rs.map TeamRow.place).get? 5 ∧
      (mkTeamEntry t rs).tb2 = (rs.map TeamRow.place).get? 6 := by
  unfold mkTeamEntry
  constructor <;> rw [List.get?_map]

/-- C1.  A scoring team's score is the sum of the overall places of its
five fastest finishers.  The member list of a team is the placed field
filtered to that team; its place list is strictly increasing (so its first
five entries are the five smallest overall places — the five fastest
finishers — and the 6th-fastest member, at index 5, is not summed), and
the team's score is the sum of the first five.  Concretely, with team A
on overall places {1,3,4,6,7,12} and team B on {2,5,8,9,10,11},
`team_results` scores A = 21 and B = 34 and ranks A first. -/
theorem C1_team_score_top5 :
    (∀ (l : List FinishEvent) (reg : List Runner) (e : TeamEntry),
      e ∈ team_results l reg →
        e.score = ((((teamRows l reg).filter
            (fun x => x.team == e.team)).map TeamRow.place).take 5).sum ∧
        (((teamRows l reg).filter
            (fun x => x.team == e.team)).map TeamRow.place).Pairwise (· < ·)) ∧
    (team_results exLedger1 exReg1).map (fun e => (e.team, e.score)) =
      [("A", 21), ("B", 34)] := by
  constructor
  · intro l reg e he
    obtain ⟨h5, heq⟩ := team_results_origin he
    have hsc := mkTeamEntry_score e.team
      ((teamRows l reg).filter (fun x => x.team == e.team))
    rw [← heq] at hsc
    exact ⟨hsc, filter_places_sorted l reg _⟩
  · decide

/-- C2.  Teams are ranked ascending by lexicographic
`(score, tiebreak1, tiebreak2)` where `tiebreak1`/`tiebreak2` are the
overall places of the team's 6th- and 7th-fastest finishers (indices 5
and 6 of its ascending place list) and a missing slot is the `+inf`
sentinel, embedded as `none`, which `tbLt`/`tbLe` order above every
number.  Concretely, two teams both scoring 28, with 6th runners at
overall places 12 and 13, rank the place-12 team first. -/
theorem C2_tiebreak_order :
    (∀ (l : List FinishEvent) (reg : List Runner),
      (team_results l reg).Pairwise (fun a b => keyLe a b = true)) ∧
    (∀ (l : List FinishEvent) (reg : List Runner) (e : TeamEntry),
      e ∈ team_results l reg →
        e.tb1 = (((teamRows l reg).filter
            (fun x => x.team == e.team)).map TeamRow.place).get? 5 ∧
        e.tb2 = (((teamRows l reg).filter
            (fun x => x.team == e.team)).map TeamRow.place).get? 6) ∧
    (team_results exLedger2 exReg2).map (fun e => (e.team, e.score, e.tb1, e.tb2)) =
      [("A", 28, some 12, none), ("B", 28, some 13, none)] := by
  refine ⟨team_results_sorted, ?_, by decide⟩
  intro l reg e he
  obtain ⟨h5, heq⟩ := team_results_origin he
  have htb := mkTeamEntry_tb e.team
    ((teamRows l reg).filter (fun x => x.team == e.team))
  rw [← heq] at htb
  exact htb

/-- C3.  A team with four or fewer finishers is absent from the team
results: every output entry stems from a group of at least five rows, and
a team's group is the placed field filtered to that team. -/
theorem C3_small_team_absent :
    ∀ (l : List FinishEvent) (reg : List Runner) (t : String),
      (teamRows l reg).countP (fun x => x.team == t) ≤ 4 →
        t ∉ (team_results l reg).map TeamEntry.team := by
  intro l reg t hle hmem
  obtain ⟨e, he, het⟩ := List.mem_map.mp hmem
  obtain ⟨h5, _⟩ := team_results_origin he
  rw [het] at h5
  rw [List.countP_eq_length_filter] at hle
  omega

/-- C10.  Individual results assign the places `1..N` bijectively to the
`N` finish events — the place column is exactly `range' 1 N` — and two
events with equal elapsed times still receive distinct consecutive
places, as in the two-way tie shown concretely. -/
theorem C10_places_bijective :
    (∀ (l : List FinishEvent) (reg : List Runner),
      (individual_results l reg).map IndivRow.place = List.range' 1 l.length) ∧
    (individual_results [⟨1, 7⟩, ⟨2, 7⟩] []).map (fun r => (r.place, r.bib)) =
      [(1, 1), (2, 2)] := by
  exact ⟨individual_results_map_place, by decide⟩

theorem individual_results_length (l : List FinishEvent) (reg : List Runner) :
    (individual_results l reg).length = l.length := by
  unfold individual_results
  rw [List.length_map, List.enum_length, sortLedger_length]

/-- C4 (amended).  In the GUI and web individual results the join is a
left join: a finish event whose bib has no registry entry still yields a
row, named `"UNKNOWN"`, with a valid 1-based place.  (The console's typed
results paths use an inner join instead — see the counterexample.) -/
theorem C4_unknown_bib_left_join :
    ∀ (l : List FinishEvent) (reg : List Runner) (e : FinishEvent),
      e ∈ l → findRunner reg e.bib = none →
        ∃ row ∈ individual_results l reg,
          row.bib = e.bib ∧ row.name = "UNKNOWN" ∧
          1 ≤ row.place ∧ row.place ≤ l.length := by
  intro l reg e hel hfind
  have hes : e ∈ sortLedger l := mem_sortBy.mpr hel
  obtain ⟨n, hn, hget⟩ := List.mem_iff_getElem.mp hes
  have hn2 : n < (individual_results l reg).length := by
    rw [individual_results_length, ← sortLedger_length l]
    exact hn
  refine ⟨(individual_results l reg)[n], List.getElem_mem hn2, ?_⟩
  have hrow : (individual_results l reg)[n] =
      { place := n + 1
        bib := e.bib
        name := ((findRunner reg e.bib).map Runner.name).getD "UNKNOWN"
        time := e.time } := by
    unfold individual_results
    rw [List.getElem_map, List.getElem_enum, hget]
  rw [hrow, hfind]
  refine ⟨rfl, rfl, Nat.le_add_left 1 n, ?_⟩
  show n + 1 ≤ l.length
  rw [← sortLedger_length l]
  omega

/-- C4 counterexample.  The console `show_individual_results` query for a
typed race is an inner join (`JOIN runners ru ON r.bib = ru.bib`): a
finish event whose bib has no registry entry is dropped entirely, against
the claim that no finish event is ever excluded for lacking a registry
match.  Here the only recorded finisher, bib 5, vanishes from the
report. -/
theorem C4_console_inner_join_drops :
    console_individual_results [⟨5, 10⟩] [] = [] ∧
    ([⟨5, 10⟩] : List FinishEvent).length = 1 := by decide

theorem consoleStep_countP_le (reg : List Runner) (st : SessionState)
    (inp : ConsoleInput) (b : Int)
    (h : st.ledger.countP (fun e => e.bib == b) ≤ 1) :
    (consoleStep reg st inp).ledger.countP (fun e => e.bib == b) ≤ 1 := by
  unfold consoleStep
  split
  · exact h
  · split
    · exact h
    · split
      · exact h
      · rename_i b0 hb0
        split
        · exact h
        · split
          · split
            · rw [List.countP_map]
              have : ((fun e : FinishEvent => e.bib == b) ∘ fun e =>
                  if e.bib == b0 then { e with time := inp.now } else e) =
                  (fun e : FinishEvent => e.bib == b) := by
                funext e
                by_cases hc : e.bib = b0 <;> simp [hc]
              rw [this]
              exact h
            · exact h
          · rename_i hany
            rw [List.countP_append]
            by_cases hbb : b0 = b
            · have h0 : st.ledger.countP (fun e => e.bib == b) = 0 := by
                rw [List.countP_eq_zero]
                intro a ha
                simp only [beq_iff_eq]
                intro hcon
                apply hany
                rw [List.any_eq_true]
                exact ⟨a, ha, by simp [hcon, hbb]⟩
              rw [h0]
              simp [List.countP_cons, hbb]
            · have h1 : List.countP (fun e => e.bib == b)
                  [({ bib := b0, time := inp.now } : FinishEvent)] = 0 := by
                simp [List.countP_cons, hbb]
              omega

theorem consoleRun_countP_le (reg : List Runner) (inputs : List ConsoleInput) :
    ∀ st : SessionState, (∀ b : Int, st.ledger.countP (fun e => e.bib == b) ≤ 1) →
      ∀ b : Int, (consoleRun reg st inputs).ledger.countP (fun e => e.bib == b) ≤ 1 := by
  induction inputs with
  | nil => intro st h b; exact h b
  | cons i rest ih =>
    intro st h b
    unfold consoleRun
    split
    · exact h b
    · exact ih (consoleStep reg st i) (fun c => consoleStep_countP_le reg st i c (h c)) b

theorem consoleStep_duplicate_policy (reg : List Runner) (st : SessionState)
    (inp : ConsoleInput) (b : Int)
    (hparse : parseIntChars (normalizeToken inp.token) = some b)
    (hany : st.ledger.any (fun e => e.bib == b) = true) :
    (consoleStep reg st inp).ledger = st.ledger ∨
    (consoleStep reg st inp).ledger = st.ledger.map (fun e =>
      if e.bib == b then { e with time := inp.now } else e) := by
  have hst : normalizeToken inp.token ≠ "status".data := by
    intro hcon
    rw [hcon] at hparse
    have hnone : parseIntChars "status".data = none := by decide
    rw [hnone] at hparse
    exact Option.noConfusion hparse
  have hemp : (normalizeToken inp.token).isEmpty ≠ true := by
    intro hcon
    rw [List.isEmpty_iff] at hcon
    rw [hcon] at hparse
    exact Option.noConfusion hparse
  unfold consoleStep
  rw [if_neg hst, if_neg hemp]
  simp only [hparse]
  by_cases h1 : ((findRunner reg b).isNone && !inp.confirmRecord) = true
  · rw [if_pos h1]
    exact Or.inl rfl
  · rw [if_neg h1, if_pos hany]
    by_cases h2 : inp.confirmUpdate = true
    · rw [if_pos h2]
      exact Or.inr rfl
    · rw [if_neg h2]
      exact Or.inl rfl

/-- C5 (amended).  In the console session the finish ledger holds at most
one row per bib: starting from an empty ledger, any input sequence leaves
at most one `results` row for every bib, and a step whose (parsed) bib is
already recorded either leaves the ledger unchanged (the operator
declines, or the unknown-bib prompt is declined) or updates the recorded
row's elapsed time in place.  (The GUI session violates the original
claim — see the counterexample.) -/
theorem C5_console_one_row_per_bib :
    (∀ (reg : List Runner) (inputs : List ConsoleInput) (b : Int),
      (consoleRun reg ⟨[], 0⟩ inputs).ledger.countP (fun e => e.bib == b) ≤ 1) ∧
    (∀ (reg : List Runner) (st : SessionState) (inp : ConsoleInput) (b : Int),
      parseIntChars (normalizeToken inp.token) = some b →
      st.ledger.any (fun e => e.bib == b) = true →
      (consoleStep reg st inp).ledger = st.ledger ∨
      (consoleStep reg st inp).ledger = st.ledger.map (fun e =>
        if e.bib == b then { e with time := inp.now } else e)) := by
  constructor
  · intro reg inputs b
    exact consoleRun_countP_le reg inputs ⟨[], 0⟩ (fun c => by simp) b
  · exact consoleStep_duplicate_policy

/-- C5 counterexample.  The GUI timing window records with an
unconditional `INSERT`: entering bib 5 twice produces two ledger rows for
bib 5, and both rows are ranked (places 1 and 2) by the individual
results — against the claim that a re-entered bib never produces a second
row considered in ranking. -/
theorem C5_gui_duplicate_rows :
    (guiRun ⟨[], 0⟩ [("5", 3), ("5", 9)]).ledger.countP (fun e => e.bib == 5) = 2 ∧
    (individual_results (guiRun ⟨[], 0⟩ [("5", 3), ("5", 9)]).ledger []).map
      (fun r => (r.place, r.bib)) = [(1, 5), (2, 5)] := by decide

/-- C9 (amended).  In the console session, a non-empty token that is not
the exit sentinel and fails integer parsing leaves the session state
unchanged: no finish event is written and the finisher counter does
not advance ('status' is such a token and silently shows status; any
other one is warned about).  (The GUI instead coerces such a token to
bib 0 and records it — see the counterexample.) -/
theorem C9_console_rejects_invalid :
    ∀ (reg : List Runner) (st : SessionState) (inp : ConsoleInput),
      normalizeToken inp.token ≠ [] →
      normalizeToken inp.token ≠ "exit".data →
      parseIntChars (normalizeToken inp.token) = none →
      consoleStep reg st inp = st := by
  intro reg st inp hne hnx hparse
  unfold consoleStep
  by_cases hst : normalizeToken inp.token = "status".data
  · rw [if_pos hst]
  · rw [if_neg hst]
    by_cases hemp : (normalizeToken inp.token).isEmpty = true
    · rw [if_pos hemp]
    · rw [if_neg hemp]
      simp only [hparse]

/-- C9 counterexample.  The GUI records the non-numeric token "abc" as a
finish for bib 0 and advances the finisher counter. -/
theorem C9_gui_records_invalid :
    guiRun ⟨[], 0⟩ [("abc", 5)] =
      ⟨[{ bib := 0, time := 5 }], 1⟩ := by decide

set_option maxRecDepth 4000 in
/-- C6 (amended).  The age bands are the fixed inclusive intervals
`[1,15], [16,20], ..., [66,70]` and `[71,200]` — the source's last band is
`(71, 200)`, not an unbounded `71+` — so every age from 1 to 200 falls in
exactly one band; ages 15 and 16 fall in different bands and ages 71 and
200 both fall in the last band.  An age above 200 matches no band (see the
counterexample). -/
theorem C6_age_bands :
    (∀ a : Nat, a < 201 → 1 ≤ a →
      age_groups.countP (fun g => decide (g.1 ≤ a) && decide (a ≤ g.2)) = 1) ∧
    ageGroupOf 15 = some (1, 15) ∧ ageGroupOf 16 = some (16, 20) ∧
    ageGroupOf 71 = some (71, 200) ∧ ageGroupOf 200 = some (71, 200) := by
  refine ⟨?_, by decide, by decide, by decide, by decide⟩
  decide

/-- C6 counterexample.  Age 201 is classified into no band: the linear
scan finds no `(low, high)` with `low ≤ 201 ≤ high` because the top band
is capped at 200, so a finisher aged 201 appears in no bucket of the age
group report — against the claimed `[71, ∞)` top band. -/
theorem C6_age201_unbanded :
    ageGroupOf 201 = none ∧
    (age_group_results [⟨1, 10⟩] [⟨1, "X", "T", some 201⟩]).all
      (fun g => g.2.isEmpty) = true := by decide

/-- C8.  The parser `parse_time_input` contradicts the repository's own
test `test_parse_time_input_invalid`, which asserts `None` for
out-of-range components ("60:60.000", "01:60.000") and negative
components ("-01:30.000", "01:-30.000"): the implementation never range-
checks, so `int()`/`float()` succeed and a numeric duration is returned
(3660, 120, -30 and 30 seconds respectively).  Structurally malformed
strings are still rejected and in-range strings parse correctly. -/
theorem C8_parse_skips_range_checks :
    parse_time_input "60:60.000" = some 3660 ∧
    parse_time_input "01:60.000" = some 120 ∧
    parse_time_input "-01:30.000" = some (-30) ∧
    parse_time_input "01:-30.000" = some 30 ∧
    parse_time_input "02:03.456" = some (mkRat 123456 1000) ∧
    parse_time_input "01:01:01.500" = some (mkRat 7323 2) ∧
    parse_time_input "" = none ∧
    parse_time_input "1:2:3:4" = none ∧
    parse_time_input "invalid" = none ∧
    parse_time_input "ab:cd.efg" = none := by decide

theorem decDigit_ne_colon (d : Nat) : decDigit d ≠ ':' := by
  unfold decDigit
  split <;> decide

theorem natToDecAux_no_colon (fuel : Nat) : ∀ n : Nat, ':' ∉ natToDecAux fuel n := by
  induction fuel with
  | zero => intro n; simp [natToDecAux]
  | succ fuel ih =>
    intro n
    unfold natToDecAux
    by_cases h : n < 10
    · rw [if_pos h]
      intro hmem
      rw [List.mem_singleton] at hmem
      exact decDigit_ne_colon n hmem.symm
    · rw [if_neg h]
      intro hmem
      rcases List.mem_append.mp hmem with h1 | h1
      · exact ih _ h1
      · rw [List.mem_singleton] at h1
        exact decDigit_ne_colon _ h1.symm

theorem natToDec_no_colon (n : Nat) : ':' ∉ natToDec n :=
  natToDecAux_no_colon (n + 1) n

theorem pad2_no_colon (n : Nat) : ':' ∉ pad2 n := by
  unfold pad2
  split
  · intro hmem
    rcases List.mem_cons.mp hmem with h1 | h1
    · exact absurd h1 (by decide)
    · exact natToDec_no_colon n h1
  · exact natToDec_no_colon n

theorem pad3_no_colon (n : Nat) : ':' ∉ pad3 n := by
  unfold pad3
  split
  · intro hmem
    rcases List.mem_cons.mp hmem with h1 | h1
    · exact absurd h1 (by decide)
    · rcases List.mem_cons.mp h1 with h2 | h2
      · exact absurd h2 (by decide)
      · exact natToDec_no_colon n h2
  · split
    · intro hmem
      rcases List.mem_cons.mp hmem with h1 | h1
      · exact absurd h1 (by decide)
      · exact natToDec_no_colon n h1
    · exact natToDec_no_colon n

theorem fdiv_num_den_eq_floor (t : ℚ) :
    t.num.fdiv (60 * (t.den : Int)) = ⌊t / 60⌋ := by
  have hden : (0 : Int) < (t.den : Int) := Int.ofNat_pos.mpr t.pos
  have hpos : (0 : Int) ≤ 60 * (t.den : Int) := by positivity
  rw [Int.fdiv_eq_ediv _ hpos]
  have h2 : t / 60 = (t.num : ℚ) / ((60 * t.den : Nat) : ℚ) := by
    conv_lhs => rw [← Rat.num_div_den t]
    rw [div_div]
    congr 1
    push_cast
    ring
  rw [h2, Rat.floor_intCast_div_natCast]
  congr 1

theorem format_time_some_eq (t : ℚ) :
    format_time (some t) =
      String.mk (intPad2 (t.num.fdiv (60 * (t.den : Int))) ++ [':'] ++
        pad2 ((fmtMs t) / 1000).toNat ++ ['.'] ++ pad3 ((fmtMs t) % 1000).toNat) := rfl

/-- C7 (formatter shape).  For every nonnegative duration `t`, the primary
formatter renders `MM:SS.mmm`: the output is the zero-padded decimal of
`⌊t/60⌋` — minutes may exceed 59, it never switches to an hours form —
then a single colon, then a colon-free seconds part.  Concretely
`3661.5 = 7323/2` seconds renders as "61:01.500" and 7200 seconds as
"120:00.000". -/
theorem C7_format_minutes_floor :
    (∀ t : ℚ, 0 ≤ t →
      ∃ s : List Char,
        format_time (some t) = String.mk (pad2 (⌊t / 60⌋).toNat ++ [':'] ++ s) ∧
        ':' ∉ s ∧ ':' ∉ pad2 (⌊t / 60⌋).toNat) ∧
    format_time (some (mkRat 7323 2)) = "61:01.500" ∧
    (mkRat 7323 2 : ℚ) = 7323 / 2 ∧
    format_time (some 7200) = "120:00.000" := by
  refine ⟨?_, by decide, ?_, by decide⟩
  · intro t ht
    have hm := fdiv_num_den_eq_floor t
    have hm0 : ¬ ((⌊t / 60⌋ : Int) < 0) :=
      not_lt.mpr (Int.floor_nonneg.mpr (by positivity))
    refine ⟨pad2 ((fmtMs t) / 1000).toNat ++ ['.'] ++ pad3 ((fmtMs t) % 1000).toNat,
      ?_, ?_, pad2_no_colon _⟩
    · rw [format_time_some_eq t, hm]
      unfold intPad2
      rw [if_neg hm0]
      simp [List.append_assoc]
    · intro hmem
      simp only [List.append_assoc, List.mem_append, List.mem_singleton] at hmem
      rcases hmem with h1 | h1 | h1
      · exact pad2_no_colon _ h1
      · exact absurd h1 (by decide)
      · exact pad3_no_colon _ h1
  · rw [Rat.mkRat_eq_div]
    norm_num

/-- Witness for C1 at the worked scenario's team-A entry. -/
theorem C1_witness :
    exEntryA ∈ team_results exLedger1 exReg1 ∧
    (exEntryA.score = ((((teamRows exLedger1 exReg1).filter
        (fun x => x.team == exEntryA.team)).map TeamRow.place).take 5).sum ∧
      (((teamRows exLedger1 exReg1).filter
        (fun x => x.team == exEntryA.team)).map TeamRow.place).Pairwise (· < ·)) :=
  ⟨by decide, C1_team_score_top5.1 exLedger1 exReg1 exEntryA (by decide)⟩

/-- Witness for C2 at the tie-break scenario's team-A entry. -/
theorem C2_witness :
    exEntryA2 ∈ team_results exLedger2 exReg2 ∧
    (exEntryA2.tb1 = (((teamRows exLedger2 exReg2).filter
        (fun x => x.team == exEntryA2.team)).map TeamRow.place).get? 5 ∧
      exEntryA2.tb2 = (((teamRows exLedger2 exReg2).filter
        (fun x => x.team == exEntryA2.team)).map TeamRow.place).get? 6) :=
  ⟨by decide, C2_tiebreak_order.2.1 exLedger2 exReg2 exEntryA2 (by decide)⟩

/-- Witness for C3: the four-finisher team T is absent. -/
theorem C3_witness :
    (teamRows exLedger3 exReg3).countP (fun x => x.team == "T") ≤ 4 ∧
    "T" ∉ (team_results exLedger3 exReg3).map TeamEntry.team :=
  ⟨by decide, C3_small_team_absent exLedger3 exReg3 "T" (by decide)⟩

/-- Witness for C4 at a one-event ledger with an empty registry. -/
theorem C4_witness :
    (⟨7, 5⟩ : FinishEvent) ∈ ([⟨7, 5⟩] : List FinishEvent) ∧
    findRunner [] (7 : Int) = none ∧
    (∃ row ∈ individual_results [⟨7, 5⟩] [],
      row.bib = (7 : Int) ∧ row.name = "UNKNOWN" ∧
      1 ≤ row.place ∧ row.place ≤ ([⟨7, 5⟩] : List FinishEvent).length) :=
  ⟨by decide, by decide,
    C4_unknown_bib_left_join [⟨7, 5⟩] [] ⟨7, 5⟩ (by decide) (by decide)⟩

/-- Witness for C5's duplicate policy: re-entering bib 5 with both
confirmations answered yes updates the recorded row in place. -/
theorem C5_witness :
    parseIntChars (normalizeToken "5") = some 5 ∧
    (([⟨5, 3⟩] : List FinishEvent).any (fun e => e.bib == 5) = true) ∧
    ((consoleStep [] ⟨[⟨5, 3⟩], 1⟩ ⟨"5", 7, true, true⟩).ledger = [⟨5, 3⟩] ∨
      (consoleStep [] ⟨[⟨5, 3⟩], 1⟩ ⟨"5", 7, true, true⟩).ledger =
        ([⟨5, 3⟩] : List FinishEvent).map (fun e =>
          if e.bib == 5 then { e with time := 7 } else e)) :=
  ⟨by decide, by decide,
    C5_console_one_row_per_bib.2 [] ⟨[⟨5, 3⟩], 1⟩ ⟨"5", 7, true, true⟩ 5
      (by decide) (by decide)⟩

/-- Witness for C6 at age 42. -/
theorem C6_witness :
    (42 : Nat) < 201 ∧ (1 : Nat) ≤ 42 ∧
    age_groups.countP (fun g => decide (g.1 ≤ 42) && decide ((42 : Nat) ≤ g.2)) = 1 :=
  ⟨by decide, by decide, C6_age_bands.1 42 (by decide) (by decide)⟩

/-- Witness for C7 at duration 0. -/
theorem C7_witness :
    (0 : ℚ) ≤ 0 ∧
    (∃ s : List Char,
      format_time (some 0) = String.mk (pad2 (⌊(0 : ℚ) / 60⌋).toNat ++ [':'] ++ s) ∧
      ':' ∉ s ∧ ':' ∉ pad2 (⌊(0 : ℚ) / 60⌋).toNat) :=
  ⟨le_refl 0, C7_format_minutes_floor.1 0 (le_refl 0)⟩

/-- Witness for C9 at the token "abc". -/
theorem C9_witness :
    normalizeToken "abc" ≠ [] ∧
    normalizeToken "abc" ≠ "exit".data ∧
    parseIntChars (normalizeToken "abc") = none ∧
    consoleStep [] ⟨[], 0⟩ ⟨"abc", 1, true, true⟩ = ⟨[], 0⟩ :=
  ⟨by decide, by decide, by decide,
    C9_console_rejects_invalid [] ⟨[], 0⟩ ⟨"abc", 1, true, true⟩
      (by decide) (by decide) (by decide)⟩

end TRTS
